import Mathlib

/-!
Shallow embedding of the Mini-RAG movie-plot retrieval system
(`src/config.py`, `src/data_loader.py`, `src/chunker.py`,
`src/vector_store.py`, `src/rag_system.py`), together with proofs that
settle the specification claims about chunking, index build/load/search
and the orchestrator's error paths.

Python strings are modelled as Lean `String`; Python lists as `List`;
floating-point similarity scores as `ℚ` (the claims under study depend
only on comparisons and ordering, not on rounding); dictionaries holding
fixed keys as structures.  The sentence-embedding model and the FAISS
L2-normalization routine are external numeric collaborators (spec §2
treats the embedder as a black box), so they enter as function
parameters; everything else is translated from the Python source.
-/

namespace MovieRag

/-! ### Python string primitives

`str.split()` (no argument) splits on runs of whitespace and never
returns empty fragments; `str.strip()` removes leading and trailing
whitespace; `str.split(sep)`-like single-character splitting is used to
model `re.split(r'[.!?]+', ...)` (splitting on each delimiter character
and later discarding empty fragments is equivalent to splitting on
maximal delimiter runs).  ASCII whitespace is modelled; the claims never
depend on the exotic Unicode space classes. -/

def pyIsSpace (c : Char) : Bool :=
  c = ' ' || c = '\t' || c = '\n' || c = '\r' || c = '\x0b' || c = '\x0c'

/-- Word splitting on a character list: maximal runs of non-whitespace. -/
def wordsAux (acc : List Char) : List Char → List (List Char)
  | [] => if acc.isEmpty then [] else [acc.reverse]
  | c :: cs =>
    if pyIsSpace c then
      if acc.isEmpty then wordsAux [] cs else acc.reverse :: wordsAux [] cs
    else wordsAux (c :: acc) cs

/-- Python `s.split()` — the word list of a string. -/
def pywords (s : String) : List String :=
  (wordsAux [] s.data).map (fun l => String.mk l)

/-- Python `len(s.split())` — the word count used by the chunker. -/
def wc (s : String) : Nat := (pywords s).length

/-- Python `s.strip()` (ASCII whitespace). -/
def pyStrip (s : String) : String :=
  String.mk (((s.data.dropWhile pyIsSpace).reverse.dropWhile pyIsSpace).reverse)

/-- Split a character list at every character satisfying `p`, keeping
(possibly empty) fragments between delimiters, like `re.split` with a
single-character class. -/
def splitCharsAux (p : Char → Bool) (acc : List Char) : List Char → List (List Char)
  | [] => [acc.reverse]
  | c :: cs => if p c then acc.reverse :: splitCharsAux p [] cs else splitCharsAux p (c :: acc) cs

/-- `re.split(r'[.!?]+', content)` followed by
`[s.strip() for s in sentences if s.strip()]` (chunker lines 60–61):
fragments between sentence-terminal punctuation, stripped, empties
dropped.  Splitting on single `.`/`!`/`?` characters and dropping empty
fragments agrees with splitting on maximal runs. -/
def splitSentences (content : String) : List String :=
  ((splitCharsAux (fun c => c = '.' || c = '!' || c = '?') [] content.data).map
      (fun l => pyStrip (String.mk l))).filter (fun s => s ≠ "")

/-! ### Configuration (`src/config.py`)

Numeric and boolean fields of the `Config` dataclass; path, model-name
and API-key fields belong to out-of-scope collaborators. -/

structure Config where
  MAX_DOCUMENTS : Nat := 400
  CHUNK_SIZE : Nat := 300
  CHUNK_OVERLAP : Nat := 50
  SMART_CHUNKING : Bool := true
  TOP_K : Nat := 3
  SIMILARITY_THRESHOLD : ℚ := 3/10
deriving DecidableEq

/-! ### Data model (`src/data_loader.py`, `src/chunker.py`) -/

structure Metadata where
  title : String
  year : String
  genres : List String
deriving DecidableEq

structure Document where
  title : String
  year : String
  content : String
  genres : List String
  metadata : Metadata
deriving DecidableEq

structure Chunk where
  content : String
  metadata : Metadata
  chunk_id : String
deriving DecidableEq

/-- A raw corpus record as parsed from the JSON array: `title`, `year`,
`genres` and `extract` may each be absent. -/
structure MovieRecord where
  title : Option String := none
  year : Option String := none
  genres : Option (List String) := none
  extract : Option String := none
deriving DecidableEq

/-! ### DataLoader (`src/data_loader.py`, `load_and_preprocess`) -/

/-- Python truthiness test `'extract' in movie and movie['extract']`:
the record has an `extract` key bound to a non-empty string. -/
def hasExtract (m : MovieRecord) : Bool :=
  match m.extract with
  | some e => e ≠ ""
  | none => false

/-- The record-to-document construction in the loop body of
`load_and_preprocess` (lines 27–46), for a record that passed the
`extract` test (whose witness is `e`). -/
def processMovie (m : MovieRecord) (e : String) : Document :=
  let year := m.year.getD "Unknown"
  let genres := m.genres.getD []
  let title := m.title.getD "Unknown"
  let content :=
    "Movie: " ++ title ++ ". Year: " ++ year ++ ". " ++
      (if genres.isEmpty then "" else "Genres: " ++ String.intercalate ", " genres ++ ". ") ++
      "Plot: " ++ e
  { title := title, year := year, content := content, genres := genres,
    metadata := { title := title, year := year, genres := genres } }

/-- The `for movie in movies` filtering loop of `load_and_preprocess`. -/
def loadLoop : List MovieRecord → List Document
  | [] => []
  | m :: ms =>
    match m.extract with
    | some e => if e ≠ "" then processMovie m e :: loadLoop ms else loadLoop ms
    | none => loadLoop ms

/-- `DataLoader.load_and_preprocess` on an already-parsed corpus:
truncate to `MAX_DOCUMENTS`, then keep exactly the records with a
non-empty `extract`. -/
def load_and_preprocess (cfg : Config) (movies : List MovieRecord) : List Document :=
  loadLoop (movies.take cfg.MAX_DOCUMENTS)

/-- `load_and_preprocess` including the `FileNotFoundError` path: a
missing data file yields the empty document list. -/
def load_and_preprocess_file (cfg : Config) (dataFile : Option (List MovieRecord)) :
    List Document :=
  match dataFile with
  | none => []
  | some movies => load_and_preprocess cfg movies

/-! ### SmartChunker (`src/chunker.py`) -/

/-- The window loop of `_fixed_size_chunking` (lines 42–53):
`for i in range(0, len(words), stride)` emitting `(i, words[i:i+size])`
and breaking once `i + size >= len(words)`.  Python raises on a zero
step and produces no iterations on a negative one; both degenerate
configurations are modelled as the empty chunk list (`stride = 0`
branch), and the claims under study all assume `0 < overlap < size`. -/
def fixedLoopF (ws : List String) (size stride : Nat) : Nat → Nat → List (Nat × List String)
  | 0, _ => []
  | fuel + 1, i =>
    if i < ws.length then
      if ws.length ≤ i + size then [(i, (ws.drop i).take size)]
      else (i, (ws.drop i).take size) :: fixedLoopF ws size stride fuel (i + stride)
    else []

/-- The loop itself; `ws.length - i` iterations always suffice for a
positive stride, so the fuelled runner below computes exactly the
Python loop. -/
def fixedLoop (ws : List String) (size stride : Nat) (i : Nat) : List (Nat × List String) :=
  if stride = 0 then [] else fixedLoopF ws size stride (ws.length - i) i

lemma fixedLoopF_congr (ws : List String) (size stride : Nat) (hs : stride ≠ 0) :
    ∀ fuel fuel' i, ws.length - i ≤ fuel → ws.length - i ≤ fuel' →
      fixedLoopF ws size stride fuel i = fixedLoopF ws size stride fuel' i := by
  intro fuel
  induction fuel with
  | zero =>
    intro fuel' i h h'
    have hi : ¬ i < ws.length := by omega
    cases fuel' with
    | zero => rfl
    | succ n => simp [fixedLoopF, hi]
  | succ fuel ih =>
    intro fuel' i h h'
    cases fuel' with
    | zero =>
      have hi : ¬ i < ws.length := by omega
      simp [fixedLoopF, hi]
    | succ n =>
      by_cases hi : i < ws.length
      · by_cases hend : ws.length ≤ i + size
        · simp [fixedLoopF, hi, hend]
        · have : ws.length - (i + stride) ≤ fuel := by omega
          have : ws.length - (i + stride) ≤ n := by omega
          simp only [fixedLoopF, if_pos hi, if_neg hend]
          rw [ih n (i + stride) (by omega) (by omega)]
      · simp [fixedLoopF, hi]

/-- The one-step unfolding of the window loop, phrased on `fixedLoop`
itself. -/
lemma fixedLoop_unfold (ws : List String) (size stride : Nat) (i : Nat) (hs : stride ≠ 0) :
    fixedLoop ws size stride i =
      if i < ws.length then
        if ws.length ≤ i + size then [(i, (ws.drop i).take size)]
        else (i, (ws.drop i).take size) :: fixedLoop ws size stride (i + stride)
      else [] := by
  unfold fixedLoop
  rw [if_neg hs, if_neg hs]
  by_cases hi : i < ws.length
  · obtain ⟨n, hn⟩ : ∃ n, ws.length - i = n + 1 := ⟨ws.length - i - 1, by omega⟩
    rw [hn]
    by_cases hend : ws.length ≤ i + size
    · simp [fixedLoopF, hi, hend]
    · simp only [fixedLoopF, if_pos hi, if_neg hend, if_pos hi]
      rw [fixedLoopF_congr ws size stride hs n (ws.length - (i + stride)) (i + stride)
        (by omega) (by omega)]
  · have hn : ws.length - i = 0 := by omega
    rw [hn]
    simp [fixedLoopF, hi]

/-- The chunk record built for window `(i, cw)` in `_fixed_size_chunking`:
note the id index is `i // CHUNK_SIZE` (line 50), not the chunk's
position in the output list. -/
def mkFixedChunk (cfg : Config) (doc : Document) (p : Nat × List String) : Chunk :=
  { content := String.intercalate " " p.2,
    metadata := doc.metadata,
    chunk_id := doc.metadata.title ++ "_" ++ toString (p.1 / cfg.CHUNK_SIZE) }

/-- `SmartChunker._fixed_size_chunking`. -/
def fixed_size_chunking (cfg : Config) (content : String) (doc : Document) : List Chunk :=
  (fixedLoop (pywords content) cfg.CHUNK_SIZE (cfg.CHUNK_SIZE - cfg.CHUNK_OVERLAP) 0).map
    (mkFixedChunk cfg doc)

/-- The overlap carried between semantic chunks:
`current_chunk[-2:] if len(current_chunk) >= 2 else current_chunk[-1:]`
(line 87). -/
def carryOver (cur : List String) : List String :=
  if 2 ≤ cur.length then cur.drop (cur.length - 2) else cur.drop (cur.length - 1)

def sumwc (l : List String) : Nat := (l.map wc).sum

/-- The sentence-accumulation loop of `_semantic_chunking`
(lines 67–97), returning the chunks (as sentence lists) emitted from
state (`cur`, `curLen`) onwards, including the final flush. -/
def semGo (size : Nat) : List String → List String → Nat → List (List String)
  | [], cur, _ => if cur.isEmpty then [] else [cur]
  | s :: rest, cur, curLen =>
    if curLen + wc s > size ∧ curLen > 0 then
      cur :: semGo size rest (carryOver cur ++ [s]) (sumwc (carryOver cur) + wc s)
    else
      semGo size rest (cur ++ [s]) (curLen + wc s)

/-- The sentence lists of the chunks `_semantic_chunking` emits for a
document content. -/
def semChunkSentences (cfg : Config) (content : String) : List (List String) :=
  semGo cfg.CHUNK_SIZE (splitSentences content) [] 0

/-- `SmartChunker._semantic_chunking`: each emitted chunk joins its
accumulated sentences with spaces; the id index is the length of the
chunk list at append time, i.e. the chunk's position. -/
def semantic_chunking (cfg : Config) (content : String) (doc : Document) : List Chunk :=
  (semChunkSentences cfg content).enum.map fun p =>
    { content := String.intercalate " " p.2,
      metadata := doc.metadata,
      chunk_id := doc.metadata.title ++ "_" ++ toString p.1 }

/-- `SmartChunker._chunk_document`: a document at most `CHUNK_SIZE`
words long becomes a single `_0` chunk; otherwise dispatch on
`SMART_CHUNKING`. -/
def chunk_document (cfg : Config) (doc : Document) : List Chunk :=
  if (pywords doc.content).length ≤ cfg.CHUNK_SIZE then
    [{ content := doc.content, metadata := doc.metadata,
       chunk_id := doc.metadata.title ++ "_0" }]
  else if cfg.SMART_CHUNKING then semantic_chunking cfg doc.content doc
  else fixed_size_chunking cfg doc.content doc

/-- `SmartChunker.chunk_documents`. -/
def chunk_documents (cfg : Config) (docs : List Document) : List Chunk :=
  (docs.map (chunk_document cfg)).flatten

/-! ### VectorStore (`src/vector_store.py`)

Embedding vectors are rational-valued lists; the sentence-transformer
`encode` call and faiss's `normalize_L2` are external numeric
collaborators (spec §2: the embedder is a black box), passed in as
functions.  A `faiss.IndexFlatIP` is its stored vector list; its
`search` scores every stored vector against the query by inner product
and returns the best `k` in descending order (stable on ties), which is
exactly the flat-index contract the code relies on.  File contents that
`faiss.read_index` / `pickle.load` would reject are modelled by the
`corrupt` artifact constructor. -/

abbrev Vec := List ℚ

/-- Inner product of two equal-dimension vectors. -/
def dot (a b : Vec) : ℚ := ((a.zip b).map (fun p => p.1 * p.2)).foldl (· + ·) 0

/-- The score array of a flat inner-product index: one `(score, idx)`
entry per stored vector, in storage order starting at `i`. -/
def scoredIdx (q : Vec) : Nat → List Vec → List (ℚ × Nat)
  | _, [] => []
  | i, v :: vs => (dot q v, i) :: scoredIdx q (i + 1) vs

/-- The result a successful `faiss.IndexFlatIP.search` call with
`0 < k ≤ ntotal` computes: the `k` best-scoring `(score, idx)` pairs,
scores descending. -/
def faissTopKs (vecs : List Vec) (q : Vec) (k : Nat) : List (ℚ × Nat) :=
  ((scoredIdx q 0 vecs).insertionSort (fun a b => b.1 ≤ a.1)).take k

/-- `faiss.Index.search` as called by the code: faiss's Python wrapper
asserts `k > 0` (and `IndexFlat::search` throws `FAISS_THROW_IF_NOT
(k > 0)`), so a `k = 0` request raises — modelled by `none`, a raised
exception propagating out of the call. -/
def faissTopK (vecs : List Vec) (q : Vec) (k : Nat) : Option (List (ℚ × Nat)) :=
  if k = 0 then none else some (faissTopKs vecs q k)

/-- A persisted artifact: present files either deserialize to a value or
fail inside `faiss.read_index` / `pickle.load`. -/
inductive Artifact (α : Type) where
  | corrupt : Artifact α
  | good : α → Artifact α
deriving DecidableEq

/-- The two files under `VECTOR_DB_PATH`: `index.faiss` and
`metadata.pkl` (`none` = file absent). -/
structure FS where
  indexFile : Option (Artifact (List Vec)) := none
  metaFile : Option (Artifact (List Chunk × List Metadata)) := none
deriving DecidableEq

/-- The mutable fields of a `VectorStore` instance. -/
structure VSState where
  index : Option (List Vec) := none
  chunks : List Chunk := []
  chunk_metadata : List Metadata := []
deriving DecidableEq

/-- `VectorStore._save_index`: overwrite both artifacts with the
current index and the aligned chunk/metadata arrays. -/
def save_index (st : VSState) (_fs : FS) : FS :=
  { indexFile := some (Artifact.good (st.index.getD [])),
    metaFile := some (Artifact.good (st.chunks, st.chunk_metadata)) }

/-- `VectorStore.build_index`: store the chunks and their metadata,
embed every chunk content, L2-normalize, add all vectors to a fresh
flat index, then persist.  Returns the new instance state and the new
file-system state. -/
def build_index (embed : String → Vec) (normalize : Vec → Vec)
    (_st : VSState) (chunks : List Chunk) (fs : FS) : VSState × FS :=
  let st1 : VSState :=
    { index := some ((chunks.map (fun c => embed c.content)).map normalize),
      chunks := chunks,
      chunk_metadata := chunks.map (fun c => c.metadata) }
  (st1, save_index st1 fs)

/-- `VectorStore.load_index`: if either file is absent, return `False`
untouched; otherwise `self.index` is assigned first
(`faiss.read_index`), then the metadata pickle is read and `self.chunks`
/ `self.chunk_metadata` are assigned; any exception inside the `try`
is caught and `False` returned, keeping whatever was already assigned. -/
def load_index (fs : FS) (st : VSState) : Bool × VSState :=
  match fs.indexFile, fs.metaFile with
  | some idxArt, some metaArt =>
    match idxArt with
    | Artifact.corrupt => (false, st)
    | Artifact.good vecs =>
      let st1 : VSState := { st with index := some vecs }
      match metaArt with
      | Artifact.corrupt => (false, st1)
      | Artifact.good (cs, md) =>
        (true, { st1 with chunks := cs, chunk_metadata := md })
  | _, _ => (false, st)

/-- The first result loop of `VectorStore.search` (lines 96–103): walk
the candidates, keep those with a valid index and a score at or above
the threshold, and stop as soon as `top_k` results are collected (the
break is tested after each candidate, appended or not). -/
def filterLoop (cfg : Config) (chunksLen top_k : Nat) :
    List (ℚ × Nat) → List (ℚ × Nat) → List (ℚ × Nat)
  | [], results => results
  | c :: rest, results =>
    let results' :=
      if c.2 < chunksLen ∧ cfg.SIMILARITY_THRESHOLD ≤ c.1 then results ++ [c] else results
    if top_k ≤ results'.length then results' else filterLoop cfg chunksLen top_k rest results'

/-- The below-threshold fallback loop of `VectorStore.search`
(lines 106–109): keep every candidate whose position is below `top_k`
and whose index is valid. -/
def fallbackLoop (chunksLen top_k : Nat) : Nat → List (ℚ × Nat) → List (ℚ × Nat)
  | _, [] => []
  | i, c :: rest =>
    if c.2 < chunksLen ∧ i < top_k then c :: fallbackLoop chunksLen top_k (i + 1) rest
    else fallbackLoop chunksLen top_k (i + 1) rest

/-- Default chunk used to express the safe lookup `self.chunks[idx]`
(every kept candidate satisfies `idx < len(chunks)`). -/
def defChunk : Chunk := { content := "", metadata := ⟨"", "", []⟩, chunk_id := "" }

/-- The candidate-selection phase of `VectorStore.search`: the
threshold-filtered walk followed by the "no results met the threshold,
return the top ones anyway" fallback (`if not results and
len(indices[0]) > 0`). -/
def searchResults (cfg : Config) (chunksLen top_k : Nat) (cands : List (ℚ × Nat)) :
    List (ℚ × Nat) :=
  let results := filterLoop cfg chunksLen top_k cands []
  if results = [] ∧ 0 < cands.length then fallbackLoop chunksLen top_k 0 cands
  else results

/-- `VectorStore.search` with an explicit `top_k` (the `None` default
just substitutes `config.TOP_K`): return `[]` before any retrieval when
the index is unbuilt; otherwise embed and normalize the query, request
`min(top_k * 3, len(chunks))` candidates from faiss — a request for
zero candidates makes the faiss assertion raise, and nothing in
`search` catches it, so the exception (`none`) propagates — then
threshold-filter, fall back to the raw candidates when the filter kept
nothing, and resolve indices against the chunk store (every kept index
is in range, so the `getD` default never fires). -/
def search (embed : String → Vec) (normalize : Vec → Vec) (cfg : Config)
    (st : VSState) (query : String) (top_k : Nat) : Option (List (Chunk × ℚ)) :=
  match st.index with
  | none => some []
  | some vecs =>
    let q := normalize (embed query)
    let search_k := min (top_k * 3) st.chunks.length
    match faissTopK vecs q search_k with
    | none => none
    | some candidates =>
      some ((searchResults cfg st.chunks.length top_k candidates).map
        (fun c => ((st.chunks.getD c.2 defChunk), c.1)))

/-- `search` as a state transformer: the method reads but never assigns
any instance field, so the state it leaves behind is the state it was
called in. -/
def search_st (embed : String → Vec) (normalize : Vec → Vec) (cfg : Config)
    (st : VSState) (query : String) (top_k : Nat) : Option (List (Chunk × ℚ)) × VSState :=
  (search embed normalize cfg st query top_k, st)

/-! ### MovieRAGSystem (`src/rag_system.py`)

The Gemini call is an external collaborator that may fail
(`llm : Option (String → Except Unit String)`, `none` = no API key);
`_generate_fallback_answer` orders titles through Python's
hash-randomized `list(set(...))` and is therefore an external
parameter as well (spec §1 puts the keyword-fallback templates out of
scope). -/

structure Response where
  answer : String
  contexts : List String
  reasoning : String
deriving DecidableEq

structure RagState where
  vs : VSState := {}
  initialized : Bool := false
deriving DecidableEq

/-- `MovieRAGSystem._build_prompt`. -/
def build_prompt (question : String) (context : String) : String :=
  "Based on the following movie plot information, answer the question. Be specific and reference the relevant movies.\n\nMovie Plot Context:\n"
    ++ context
    ++ "\n\nQuestion: " ++ question
    ++ "\n\nPlease provide a concise answer that directly addresses the question. If the context contains relevant information, reference specific movie titles and plot points.\n\nAnswer:"

/-- `MovieRAGSystem._generate_reasoning`. -/
def generate_reasoning (question : String) (retrieved : List (Chunk × ℚ)) : String :=
  let top_movies :=
    ((retrieved.take 3).map (fun p => p.1.metadata.title)).foldl
      (fun acc t => if t ∈ acc then acc else acc ++ [t]) []
  if top_movies.isEmpty then
    "No relevant movie plot information was found for the query."
  else
    String.intercalate " "
      ["The question was about '" ++ question ++ "'.",
       "I searched through movie plots and found relevant information from "
         ++ toString retrieved.length ++ " chunks.",
       "The most relevant movies were: " ++ String.intercalate ", " top_movies ++ ".",
       "I used these plot details to form a comprehensive answer."]

/-- `MovieRAGSystem.initialize`: try to load the persisted store; on
failure load the corpus, give up (returning `false`, `initialized`
still unset) when no documents survive preprocessing, otherwise chunk,
build and persist the index. -/
def initSys (embed : String → Vec) (normalize : Vec → Vec) (cfg : Config)
    (dataFile : Option (List MovieRecord)) (fs : FS) (st : RagState) :
    Bool × RagState × FS :=
  match load_index fs st.vs with
  | (true, vs') => (true, { st with vs := vs', initialized := true }, fs)
  | (false, vs') =>
    let documents := load_and_preprocess_file cfg dataFile
    if documents.isEmpty then (false, { st with vs := vs' }, fs)
    else
      let chunks := chunk_documents cfg documents
      let (vs'', fs') := build_index embed normalize vs' chunks fs
      (true, { vs := vs'', initialized := true }, fs')

/-- The response object `MovieRAGSystem.query` returns when lazy
initialization fails (rag_system lines 59–64). -/
def initFailureResponse : Response :=
  { answer := "System initialization failed. Please check your data file.",
    contexts := [],
    reasoning := "Initialization error" }

/-- The response object returned when retrieval finds nothing
(rag_system lines 71–76). -/
def noContextResponse : Response :=
  { answer := "I couldn't find relevant information about this topic in the movie plots database.",
    contexts := [],
    reasoning := "No relevant movie plot information was found for the query." }

/-- `MovieRAGSystem.query`: lazily initialize, retrieve the top 5
chunks, and compose the structured response; the Gemini call, when
configured and failing, degrades to the keyword fallback
(`fallbackAnswer`, external as explained above).  Nothing in `query`
catches an exception raised inside `search`, so a raising retrieval
call propagates (`none`); every path the claims exercise returns
`some`. -/
def query (embed : String → Vec) (normalize : Vec → Vec)
    (llm : Option (String → Except Unit String))
    (fallbackAnswer : String → List (Chunk × ℚ) → String)
    (cfg : Config) (dataFile : Option (List MovieRecord)) (fs : FS)
    (st : RagState) (question : String) : Option (Response × RagState × FS) :=
  let step :=
    if st.initialized then (true, st, fs)
    else initSys embed normalize cfg dataFile fs st
  match step with
  | (false, st', fs') => some (initFailureResponse, st', fs')
  | (true, st', fs') =>
    match search embed normalize cfg st'.vs question 5 with
    | none => none
    | some retrieved =>
      if retrieved.isEmpty then some (noContextResponse, st', fs')
      else
        let contexts := retrieved.map (fun p => p.1.content)
        let context_text := String.intercalate "\n\n" contexts
        let prompt := build_prompt question context_text
        let answer :=
          match llm with
          | some f =>
            match f prompt with
            | Except.ok t => pyStrip t
            | Except.error _ => fallbackAnswer question retrieved
          | none => fallbackAnswer question retrieved
        let reasoning := generate_reasoning question retrieved
        some ({ answer := answer, contexts := contexts, reasoning := reasoning }, st', fs')

/-! ### Concrete fixtures used by counterexamples and witnesses -/

/-- An embedder sending every string to the one-dimensional vector `[1]`. -/
def embed1 : String → Vec := fun _ => [1]

/-- `Config` with a small fixed-size chunking geometry
(`CHUNK_SIZE = 4`, `CHUNK_OVERLAP = 2`, stride `2`) and smart chunking
off. -/
def cfgFixed : Config :=
  { CHUNK_SIZE := 4, CHUNK_OVERLAP := 2, SMART_CHUNKING := false }

def metaT : Metadata := { title := "T", year := "1999", genres := [] }

/-- A five-word document, one word past a full window of `cfgFixed`. -/
def docFive : Document :=
  { title := "T", year := "1999", content := "v w x y z", genres := [], metadata := metaT }

/-- A single concrete chunk. -/
def chunkA : Chunk := { content := "c", metadata := metaT, chunk_id := "T_0" }

/-- `Config` whose similarity threshold is an integer rational (so
concrete score comparisons reduce). -/
def cfgThr : Config := { SIMILARITY_THRESHOLD := 1 }

/-- A store state as produced by `build_index` over the one-chunk list. -/
def builtSt : VSState := (build_index embed1 id {} [chunkA] {}).1

/-! ### Claim C7 — preprocessing drops exactly the extract-less records -/

lemma loadLoop_eq_filter_map (ms : List MovieRecord) :
    loadLoop ms = (ms.filter hasExtract).map (fun m => processMovie m (m.extract.getD "")) := by
  induction ms with
  | nil => rfl
  | cons m ms ih =>
    cases he : m.extract with
    | none => simpa [loadLoop, hasExtract, he] using ih
    | some e =>
      by_cases hne : e = ""
      · simp [loadLoop, hasExtract, he, hne, ih]
      · simp [loadLoop, hasExtract, he, hne, ih]

/-- Claim C7: preprocessing keeps, in input order, exactly the records
among the first `MAX_DOCUMENTS` that carry a non-empty `extract`, each
mapped to its enriched document — i.e. the loop is the
truncate-filter-map pipeline. -/
theorem c7_preprocess_drops_exactly_extractless (cfg : Config) (movies : List MovieRecord) :
    load_and_preprocess cfg movies
      = ((movies.take cfg.MAX_DOCUMENTS).filter hasExtract).map
          (fun m => processMovie m (m.extract.getD "")) :=
  loadLoop_eq_filter_map (movies.take cfg.MAX_DOCUMENTS)

/-! ### Claim C1 — chunk ids

The fixed-size strategy computes the id suffix as `i // CHUNK_SIZE`
where `i` advances by `CHUNK_SIZE - CHUNK_OVERLAP`, so consecutive
windows within one document can share an id (with the default geometry
300/50 the first two windows are `_0` and `_0`).  The sentence-aware
strategy and the short-document path do emit the sequential position.
The data model's intent (unique `(title, sequence-index)` ids, as the
other two paths implement) makes the division by `CHUNK_SIZE` a slip in
the code. -/

/-- Claim C1, failing input: under `CHUNK_SIZE = 4`, `CHUNK_OVERLAP = 2`
the five-word document produces two chunks both labelled `T_0` — the
ids are neither sequential nor unique within one parent document. -/
theorem c1_fixed_chunk_ids_collide :
    (chunk_document cfgFixed docFive).map Chunk.chunk_id = ["T_0", "T_0"] ∧
      ¬ ((chunk_document cfgFixed docFive).map Chunk.chunk_id).Nodup := by
  constructor
  · rfl
  · decide

/-! ### Claim C9 — load_index failure atomicity -/

/-- Claim C9, counterexample to its final clause: with both artifact
files present but the vector-index blob unreadable, `load_index`
returns `false` with the instance state fully unchanged — so "state
unchanged only when a file is missing" is wrong. -/
theorem c9_counterexample_corrupt_index_leaves_state :
    load_index { indexFile := some Artifact.corrupt,
                 metaFile := some (Artifact.good ([chunkA], [metaT])) } {} = (false, {}) ∧
      (FS.indexFile { indexFile := some Artifact.corrupt,
                      metaFile := some (Artifact.good ([chunkA], [metaT])) }) ≠ none ∧
      (FS.metaFile { indexFile := some Artifact.corrupt,
                     metaFile := some (Artifact.good ([chunkA], [metaT])) }) ≠ none := by
  refine ⟨rfl, by decide, by decide⟩

/-- Claim C9 as amended: `load_index` (1) returns `false` with state
unchanged when either artifact file is missing, and likewise (2) when
both are present but the vector-index blob itself fails to read
(`faiss.read_index` raises before any assignment); (3) when the index
blob reads but the metadata blob fails to deserialize it returns
`false` having already overwritten `self.index` while `self.chunks`
and `self.chunk_metadata` keep their previous values; (4) when both
read, it returns `true` with all three fields replaced. -/
theorem c9_load_index_atomicity :
    (∀ (fs : FS) (st : VSState), fs.indexFile = none ∨ fs.metaFile = none →
        load_index fs st = (false, st)) ∧
    (∀ (fs : FS) (st : VSState) (a : Artifact (List Chunk × List Metadata)),
        fs.indexFile = some Artifact.corrupt → fs.metaFile = some a →
        load_index fs st = (false, st)) ∧
    (∀ (fs : FS) (st : VSState) (v : List Vec),
        fs.indexFile = some (Artifact.good v) → fs.metaFile = some Artifact.corrupt →
        load_index fs st = (false, { st with index := some v })) ∧
    (∀ (fs : FS) (st : VSState) (v : List Vec) (cs : List Chunk) (md : List Metadata),
        fs.indexFile = some (Artifact.good v) → fs.metaFile = some (Artifact.good (cs, md)) →
        load_index fs st = (true, { index := some v, chunks := cs, chunk_metadata := md })) := by
  refine ⟨?_, ?_, ?_, ?_⟩
  · rintro ⟨i, m⟩ st h
    dsimp only at h
    rcases h with rfl | rfl
    · cases m <;> rfl
    · cases i <;> rfl
  · rintro ⟨i, m⟩ st a h1 h2
    dsimp only at h1 h2
    subst h1; subst h2; rfl
  · rintro ⟨i, m⟩ st v h1 h2
    dsimp only at h1 h2
    subst h1; subst h2; rfl
  · rintro ⟨i, m⟩ st v cs md h1 h2
    dsimp only at h1 h2
    subst h1; subst h2; rfl

/-- Witness for the amended C9 at a concrete input: a readable index
blob plus an unreadable metadata blob ends with the index replaced and
the chunk fields untouched. -/
theorem c9_load_index_atomicity_witness :
    load_index { indexFile := some (Artifact.good [[1]]), metaFile := some Artifact.corrupt }
        { index := none, chunks := [chunkA], chunk_metadata := [metaT] }
      = (false, { index := some [[1]], chunks := [chunkA], chunk_metadata := [metaT] }) :=
  c9_load_index_atomicity.2.2.1
    { indexFile := some (Artifact.good [[1]]), metaFile := some Artifact.corrupt }
    { index := none, chunks := [chunkA], chunk_metadata := [metaT] } [[1]] rfl rfl

/-! ### Claim C6 — chunks / embeddings / index alignment -/

/-- The `len(chunks) == len(embeddings) == index.size` invariant: the
index holds one (normalized-embedding) vector per stored chunk and the
metadata side-store is aligned with both. -/
def vsAligned (st : VSState) : Prop :=
  ∃ v, st.index = some v ∧ st.chunks.length = v.length ∧
    st.chunk_metadata.length = st.chunks.length

/-- Claim C6: alignment holds after every `build_index`; a successful
`load_index` of aligned artifacts (in particular of the artifact pair
any `build_index` just persisted — conjunct 4) succeeds and
re-establishes it; and `search` never assigns instance state, so every
subsequent search preserves it. -/
theorem c6_alignment_invariant :
    (∀ (embed : String → Vec) (normalize : Vec → Vec) (st : VSState)
        (chunks : List Chunk) (fs : FS),
        vsAligned (build_index embed normalize st chunks fs).1) ∧
    (∀ (fs : FS) (st : VSState) (v : List Vec) (cs : List Chunk) (md : List Metadata),
        fs.indexFile = some (Artifact.good v) → fs.metaFile = some (Artifact.good (cs, md)) →
        cs.length = v.length → md.length = cs.length →
        (load_index fs st).1 = true ∧ vsAligned (load_index fs st).2) ∧
    (∀ (embed : String → Vec) (normalize : Vec → Vec) (cfg : Config) (st : VSState)
        (q : String) (k : Nat),
        (search_st embed normalize cfg st q k).2 = st) ∧
    (∀ (embed : String → Vec) (normalize : Vec → Vec) (st st2 : VSState)
        (chunks : List Chunk) (fs : FS),
        (load_index (build_index embed normalize st chunks fs).2 st2).1 = true ∧
          vsAligned (load_index (build_index embed normalize st chunks fs).2 st2).2) := by
  refine ⟨?_, ?_, ?_, ?_⟩
  · intro embed normalize st chunks fs
    exact ⟨_, rfl, by simp [build_index], by simp [build_index]⟩
  · rintro ⟨i, m⟩ st v cs md h1 h2 h3 h4
    simp only at h1 h2; subst h1; subst h2
    exact ⟨rfl, ⟨v, rfl, h3, h4⟩⟩
  · intro embed normalize cfg st q k; rfl
  · intro embed normalize st st2 chunks fs
    refine ⟨rfl, ⟨_, rfl, ?_, ?_⟩⟩ <;>
      simp [build_index, save_index, load_index]

/-- Witness for C6 at a concrete input: loading a hand-written aligned
artifact pair succeeds and yields an aligned store. -/
theorem c6_alignment_invariant_witness :
    (load_index { indexFile := some (Artifact.good [[1]]),
                  metaFile := some (Artifact.good ([chunkA], [metaT])) } {}).1 = true ∧
      vsAligned (load_index { indexFile := some (Artifact.good [[1]]),
                              metaFile := some (Artifact.good ([chunkA], [metaT])) } {}).2 :=
  c6_alignment_invariant.2.1
    { indexFile := some (Artifact.good [[1]]),
      metaFile := some (Artifact.good ([chunkA], [metaT])) } {} [[1]] [chunkA] [metaT]
    rfl rfl rfl rfl

/-! ### Claim C8 — empty corpus: failed initialization, graceful query -/

/-- Claim C8: with the data file present but holding an empty array and
no cached index artifacts, initialization reports failure, and `query`
returns — `some`, i.e. without any exception propagating — the
initialization-failure response object (fixed answer, empty contexts,
"Initialization error" reasoning). -/
theorem c8_empty_corpus_graceful (embed : String → Vec) (normalize : Vec → Vec)
    (llm : Option (String → Except Unit String))
    (fbA : String → List (Chunk × ℚ) → String) (cfg : Config) (fs : FS) (st : RagState)
    (question : String)
    (h1 : fs.indexFile = none) (h2 : fs.metaFile = none) (h3 : st.initialized = false) :
    (initSys embed normalize cfg (some []) fs st).1 = false ∧
      (query embed normalize llm fbA cfg (some []) fs st question).map (fun r => r.1)
        = some initFailureResponse := by
  obtain ⟨i, m⟩ := fs
  simp only at h1 h2; subst h1; subst h2
  have hinit : (initSys embed normalize cfg (some []) { indexFile := none, metaFile := none } st)
      = (false, { st with vs := st.vs }, { indexFile := none, metaFile := none }) := by
    simp [initSys, load_index, load_and_preprocess_file, load_and_preprocess, loadLoop]
  refine ⟨by rw [hinit], ?_⟩
  simp [query, h3, hinit]

/-- Witness for C8 at a concrete input. -/
theorem c8_empty_corpus_graceful_witness :
    (initSys embed1 id {} (some []) {} {}).1 = false ∧
      (query embed1 id none (fun _ _ => "") {} (some []) {} {} "any question").map (fun r => r.1)
        = some initFailureResponse :=
  c8_empty_corpus_graceful embed1 id none (fun _ _ => "") {} {} {} "any question" rfl rfl rfl

/-! ### Claims C3 and C4 — fixed-size window coverage and overlap -/

lemma fixedLoop_nil_of_le (ws : List String) (size stride i : Nat) (h : ws.length ≤ i) :
    fixedLoop ws size stride i = [] := by
  unfold fixedLoop
  by_cases hs : stride = 0
  · rw [if_pos hs]
  · rw [if_neg hs]
    have h0 : ws.length - i = 0 := by omega
    rw [h0]
    rfl

lemma fixedLoop_cons (ws : List String) (size stride i : Nat)
    (hi : i < ws.length) (hs : stride ≠ 0) :
    ∃ t, fixedLoop ws size stride i = (i, (ws.drop i).take size) :: t := by
  rw [fixedLoop_unfold ws size stride i hs, if_pos hi]
  by_cases hend : ws.length ≤ i + size
  · exact ⟨[], by rw [if_pos hend]⟩
  · exact ⟨_, by rw [if_neg hend]⟩

/-- Every in-range word position is inside one of the loop's windows:
windows advance by `stride ≤ size`, so they leave no gap, and the loop
only stops after a window that reaches the end of the word list. -/
lemma fixedLoop_covers (ws : List String) (size stride : Nat)
    (hs : 0 < stride) (hss : stride ≤ size) :
    ∀ i j, i ≤ j → j < ws.length →
      ∃ start, (start, (ws.drop start).take size) ∈ fixedLoop ws size stride i ∧
        start ≤ j ∧ j < start + size := by
  suffices H : ∀ n i j, ws.length - i ≤ n → i ≤ j → j < ws.length →
      ∃ start, (start, (ws.drop start).take size) ∈ fixedLoop ws size stride i ∧
        start ≤ j ∧ j < start + size by
    intro i j h1 h2
    exact H (ws.length - i) i j le_rfl h1 h2
  intro n
  induction n with
  | zero => intro i j h1 h2 h3; omega
  | succ n ih =>
    intro i j h1 h2 h3
    have hi : i < ws.length := by omega
    rw [fixedLoop_unfold ws size stride i (by omega), if_pos hi]
    by_cases hend : ws.length ≤ i + size
    · rw [if_pos hend]
      exact ⟨i, List.mem_singleton.mpr rfl, h2, by omega⟩
    · rw [if_neg hend]
      by_cases hcov : j < i + size
      · exact ⟨i, List.mem_cons_self _ _, h2, hcov⟩
      · obtain ⟨start, hmem, h4, h5⟩ := ih (i + stride) j (by omega) (by omega) h3
        exact ⟨start, List.mem_cons_of_mem _ hmem, h4, h5⟩

/-- Claim C3: under a valid geometry (`0 < CHUNK_OVERLAP < CHUNK_SIZE`)
and a document longer than `CHUNK_SIZE` words, every word of the
content lies in at least one window emitted by the fixed-size strategy,
and that window's chunk record is among the emitted chunks. -/
theorem c3_fixed_coverage (cfg : Config) (content : String) (doc : Document)
    (h1 : 0 < cfg.CHUNK_OVERLAP) (h2 : cfg.CHUNK_OVERLAP < cfg.CHUNK_SIZE)
    (_h3 : cfg.CHUNK_SIZE < (pywords content).length) :
    ∀ w ∈ pywords content,
      ∃ p ∈ fixedLoop (pywords content) cfg.CHUNK_SIZE (cfg.CHUNK_SIZE - cfg.CHUNK_OVERLAP) 0,
        w ∈ p.2 ∧ mkFixedChunk cfg doc p ∈ fixed_size_chunking cfg content doc := by
  intro w hw
  obtain ⟨j, hj, hjw⟩ := List.mem_iff_getElem.mp hw
  obtain ⟨start, hmem, hs1, hs2⟩ :=
    fixedLoop_covers (pywords content) cfg.CHUNK_SIZE (cfg.CHUNK_SIZE - cfg.CHUNK_OVERLAP)
      (by omega) (by omega) 0 j (Nat.zero_le j) hj
  refine ⟨(start, ((pywords content).drop start).take cfg.CHUNK_SIZE), hmem, ?_,
    List.mem_map_of_mem _ hmem⟩
  have hlt : j - start < (((pywords content).drop start).take cfg.CHUNK_SIZE).length := by
    simp only [List.length_take, List.length_drop]
    omega
  have hval : (((pywords content).drop start).take cfg.CHUNK_SIZE).get ⟨j - start, hlt⟩ = w := by
    rw [List.get_eq_getElem, List.getElem_take, List.getElem_drop]
    simp only [Nat.add_sub_cancel' hs1]
    exact hjw
  exact List.mem_iff_get.mpr ⟨⟨j - start, hlt⟩, hval⟩

/-- The consecutive-window relation of the fixed-size loop: any two
adjacent list entries start `stride` apart, hold the standard windows,
and the earlier one is a non-final (hence full-size) window. -/
lemma fixedLoop_chain (ws : List String) (size stride : Nat) (hs : 0 < stride) :
    ∀ i k, k + 1 < (fixedLoop ws size stride i).length →
      ∃ j, i ≤ j ∧ j + size < ws.length ∧
        (fixedLoop ws size stride i)[k]? = some (j, (ws.drop j).take size) ∧
        (fixedLoop ws size stride i)[k + 1]?
          = some (j + stride, (ws.drop (j + stride)).take size) := by
  suffices H : ∀ n i k, ws.length - i ≤ n → k + 1 < (fixedLoop ws size stride i).length →
      ∃ j, i ≤ j ∧ j + size < ws.length ∧
        (fixedLoop ws size stride i)[k]? = some (j, (ws.drop j).take size) ∧
        (fixedLoop ws size stride i)[k + 1]?
          = some (j + stride, (ws.drop (j + stride)).take size) by
    intro i k hk
    exact H (ws.length - i) i k le_rfl hk
  intro n
  induction n with
  | zero =>
    intro i k h1 h2
    rw [fixedLoop_nil_of_le ws size stride i (by omega)] at h2
    simp at h2
  | succ n ih =>
    intro i k h1 h2
    by_cases hi : i < ws.length
    · rw [fixedLoop_unfold ws size stride i (by omega), if_pos hi] at h2 ⊢
      by_cases hend : ws.length ≤ i + size
      · rw [if_pos hend] at h2
        simp at h2
      · rw [if_neg hend] at h2 ⊢
        cases k with
        | zero =>
          have hlen : 0 < (fixedLoop ws size stride (i + stride)).length := by
            simp only [List.length_cons] at h2
            omega
          have hi2 : i + stride < ws.length := by
            by_contra hge
            rw [fixedLoop_nil_of_le ws size stride (i + stride) (by omega)] at hlen
            simp at hlen
          obtain ⟨t, ht⟩ := fixedLoop_cons ws size stride (i + stride) hi2 (by omega)
          exact ⟨i, le_rfl, by omega, by simp, by simp [ht]⟩
        | succ k =>
          simp only [List.length_cons] at h2
          obtain ⟨j, hj0, hj1, hj2, hj3⟩ := ih (i + stride) k (by omega) (by omega)
          exact ⟨j, by omega, hj1, by simpa using hj2, by simpa using hj3⟩
    · rw [fixedLoop_nil_of_le ws size stride i (by omega)] at h2
      simp at h2

/-- Claim C4: under a valid geometry and a document longer than
`CHUNK_SIZE` words, every pair of consecutive windows of the fixed-size
strategy shares exactly `CHUNK_OVERLAP` words — the
`CHUNK_SIZE - CHUNK_OVERLAP` suffix of the earlier window equals the
`CHUNK_OVERLAP`-word prefix of the later (so the "except possibly the
final pair" allowance of the claim is never even needed); the first
conjunct ties the window list to the emitted chunk records. -/
theorem c4_fixed_overlap (cfg : Config) (content : String) (doc : Document)
    (h1 : 0 < cfg.CHUNK_OVERLAP) (h2 : cfg.CHUNK_OVERLAP < cfg.CHUNK_SIZE)
    (_h3 : cfg.CHUNK_SIZE < (pywords content).length) :
    fixed_size_chunking cfg content doc
        = (fixedLoop (pywords content) cfg.CHUNK_SIZE (cfg.CHUNK_SIZE - cfg.CHUNK_OVERLAP) 0).map
            (mkFixedChunk cfg doc) ∧
    ∀ k, k + 1 < (fixedLoop (pywords content) cfg.CHUNK_SIZE
          (cfg.CHUNK_SIZE - cfg.CHUNK_OVERLAP) 0).length →
      ∃ a b,
        (fixedLoop (pywords content) cfg.CHUNK_SIZE (cfg.CHUNK_SIZE - cfg.CHUNK_OVERLAP) 0)[k]?
            = some a ∧
        (fixedLoop (pywords content) cfg.CHUNK_SIZE
            (cfg.CHUNK_SIZE - cfg.CHUNK_OVERLAP) 0)[k + 1]? = some b ∧
        a.2.drop (cfg.CHUNK_SIZE - cfg.CHUNK_OVERLAP) = b.2.take cfg.CHUNK_OVERLAP ∧
        (a.2.drop (cfg.CHUNK_SIZE - cfg.CHUNK_OVERLAP)).length = cfg.CHUNK_OVERLAP := by
  refine ⟨rfl, ?_⟩
  intro k hk
  obtain ⟨j, hj0, hj1, hj2, hj3⟩ :=
    fixedLoop_chain (pywords content) cfg.CHUNK_SIZE (cfg.CHUNK_SIZE - cfg.CHUNK_OVERLAP)
      (by omega) 0 k hk
  refine ⟨_, _, hj2, hj3, ?_, ?_⟩
  · rw [List.drop_take, List.drop_drop, List.take_take,
      show cfg.CHUNK_SIZE - (cfg.CHUNK_SIZE - cfg.CHUNK_OVERLAP) = cfg.CHUNK_OVERLAP from by omega,
      Nat.min_eq_left (by omega)]
  · simp only [List.length_drop, List.length_take, List.length_drop]
    omega

/-- Witness for C3 at a concrete input: the last word of the five-word
document is covered by the second window. -/
theorem c3_fixed_coverage_witness :
    ∃ p ∈ fixedLoop (pywords "v w x y z") cfgFixed.CHUNK_SIZE
        (cfgFixed.CHUNK_SIZE - cfgFixed.CHUNK_OVERLAP) 0,
      "z" ∈ p.2 ∧ mkFixedChunk cfgFixed docFive p ∈ fixed_size_chunking cfgFixed "v w x y z" docFive :=
  c3_fixed_coverage cfgFixed "v w x y z" docFive (by decide) (by decide) (by decide) "z" (by decide)

/-- Witness for C4 at a concrete input: the two windows of the
five-word document share exactly the two-word overlap. -/
theorem c4_fixed_overlap_witness :
    ∃ a b,
      (fixedLoop (pywords "v w x y z") cfgFixed.CHUNK_SIZE
          (cfgFixed.CHUNK_SIZE - cfgFixed.CHUNK_OVERLAP) 0)[0]? = some a ∧
      (fixedLoop (pywords "v w x y z") cfgFixed.CHUNK_SIZE
          (cfgFixed.CHUNK_SIZE - cfgFixed.CHUNK_OVERLAP) 0)[0 + 1]? = some b ∧
      a.2.drop (cfgFixed.CHUNK_SIZE - cfgFixed.CHUNK_OVERLAP) = b.2.take cfgFixed.CHUNK_OVERLAP ∧
      (a.2.drop (cfgFixed.CHUNK_SIZE - cfgFixed.CHUNK_OVERLAP)).length = cfgFixed.CHUNK_OVERLAP :=
  (c4_fixed_overlap cfgFixed "v w x y z" docFive (by decide) (by decide) (by decide)).2 0 (by decide)

/-! ### Claim C5 — sentence-aware chunks reconstruct the sentence sequence

Each chunk emitted after the first begins with exactly the sentences
carried over from its predecessor (the last `min 2 |predecessor|`
sentences); dropping that carried prefix from every later chunk and
concatenating recovers the split sentence sequence. -/

/-- Drop from each chunk the overlap carried into it from the previous
chunk, then concatenate. -/
def dedupFrom (prev : List String) : List (List String) → List String
  | [] => []
  | c :: cs => c.drop (min 2 prev.length) ++ dedupFrom c cs

/-- De-duplicated concatenation of the emitted chunks' sentences. -/
def dedupConcat : List (List String) → List String
  | [] => []
  | c :: cs => c ++ dedupFrom c cs

/-- Generalized form used in the induction: the head chunk still starts
with the current accumulator `cur`, whose sentences were already
accounted for. -/
def dedupCont (cur : List String) : List (List String) → List String
  | [] => []
  | c :: cs => c.drop cur.length ++ dedupFrom c cs

lemma sumwc_append (a b : List String) : sumwc (a ++ b) = sumwc a + sumwc b := by
  simp [sumwc]

lemma ne_nil_of_sumwc_pos (cur : List String) (h : 0 < sumwc cur) : cur ≠ [] := by
  intro hnil
  subst hnil
  simp [sumwc] at h

lemma carryOver_length (cur : List String) (h : cur ≠ []) :
    (carryOver cur).length = min 2 cur.length := by
  have hlen : 0 < cur.length := List.length_pos.mpr h
  unfold carryOver
  by_cases h2 : 2 ≤ cur.length
  · rw [if_pos h2, List.length_drop]; omega
  · rw [if_neg h2, List.length_drop]; omega

/-- The accumulator is a prefix of the next chunk the loop emits. -/
lemma semGo_head (size : Nat) :
    ∀ (rest cur : List String) (curLen : Nat), cur ≠ [] →
      ∃ t K, semGo size rest cur curLen = (cur ++ t) :: K := by
  intro rest
  induction rest with
  | nil =>
    intro cur curLen h
    cases cur with
    | nil => exact absurd rfl h
    | cons a as => exact ⟨[], [], by simp [semGo]⟩
  | cons s rest ih =>
    intro cur curLen h
    by_cases hc : curLen + wc s > size ∧ curLen > 0
    · exact ⟨[], semGo size rest (carryOver cur ++ [s]) (sumwc (carryOver cur) + wc s),
        by simp only [semGo, if_pos hc, List.append_nil]⟩
    · obtain ⟨t, K, hK⟩ := ih (cur ++ [s]) (curLen + wc s) (by simp)
      refine ⟨[s] ++ t, K, ?_⟩
      simp only [semGo, if_neg hc]
      rw [hK, List.append_assoc]

/-- Core reconstruction induction: from any loop state whose running
length invariant holds, the de-duplicated output of the remaining loop
is exactly the remaining sentence list. -/
lemma semGo_dedup (size : Nat) :
    ∀ (rest cur : List String) (curLen : Nat), curLen = sumwc cur →
      dedupCont cur (semGo size rest cur curLen) = rest := by
  intro rest
  induction rest with
  | nil =>
    intro cur curLen _hinv
    cases cur with
    | nil => rfl
    | cons a as => simp [semGo, dedupCont, dedupFrom, List.drop_length]
  | cons s rest ih =>
    intro cur curLen hinv
    by_cases hc : curLen + wc s > size ∧ curLen > 0
    · have hcur : cur ≠ [] := ne_nil_of_sumwc_pos cur (hinv ▸ hc.2)
      have hco : carryOver cur ++ [s] ≠ [] := by simp
      obtain ⟨t, K', hK⟩ :=
        semGo_head size rest (carryOver cur ++ [s]) (sumwc (carryOver cur) + wc s) hco
      have hIH := ih (carryOver cur ++ [s]) (sumwc (carryOver cur) + wc s)
        (by rw [sumwc_append]; simp [sumwc])
      rw [hK] at hIH
      simp only [dedupCont] at hIH
      rw [List.drop_left] at hIH
      simp only [semGo, if_pos hc]
      rw [hK]
      simp only [dedupCont, dedupFrom]
      rw [List.drop_length, List.nil_append, ← carryOver_length cur hcur,
        List.append_assoc, List.drop_left]
      rw [List.append_assoc] at hIH
      simp only [List.cons_append, List.nil_append] at hIH ⊢
      rw [hIH]
    · obtain ⟨t, K', hK⟩ := semGo_head size rest (cur ++ [s]) (curLen + wc s) (by simp)
      have hIH := ih (cur ++ [s]) (curLen + wc s) (by rw [hinv, sumwc_append]; simp [sumwc])
      rw [hK] at hIH
      simp only [dedupCont] at hIH
      rw [List.drop_left] at hIH
      simp only [semGo, if_neg hc]
      rw [hK]
      simp only [dedupCont]
      rw [List.append_assoc, List.drop_left]
      rw [List.append_assoc] at hIH
      simp only [List.cons_append, List.nil_append] at hIH ⊢
      rw [hIH]

lemma dedupConcat_eq_dedupCont_nil (K : List (List String)) :
    dedupConcat K = dedupCont [] K := by
  cases K with
  | nil => rfl
  | cons c cs => simp [dedupConcat, dedupCont]

/-- Claim C5: for every document, concatenating the sentence-aware
chunks' sentences in order while dropping, from each chunk after the
first, the overlap sentences carried over from its predecessor,
reconstructs exactly the document's split-and-trimmed sentence
sequence. -/
theorem c5_semantic_reconstruction (cfg : Config) (content : String) :
    dedupConcat (semChunkSentences cfg content) = splitSentences content := by
  unfold semChunkSentences
  rw [dedupConcat_eq_dedupCont_nil]
  exact semGo_dedup cfg.CHUNK_SIZE (splitSentences content) [] 0 rfl

/-! ### Claim C10 — CHUNK_SIZE is not a hard bound for semantic chunks -/

lemma carryOver_subset (cur : List String) : ∀ x ∈ carryOver cur, x ∈ cur := by
  intro x hx
  unfold carryOver at hx
  by_cases h : 2 ≤ cur.length
  · rw [if_pos h] at hx; exact List.mem_of_mem_drop hx
  · rw [if_neg h] at hx; exact List.mem_of_mem_drop hx

/-- Every sentence of every emitted chunk comes from the accumulator or
from the remaining input — the loop never splits a sentence. -/
lemma semGo_sentences_from (size : Nat) :
    ∀ (rest cur : List String) (curLen : Nat) (chunk : List String),
      chunk ∈ semGo size rest cur curLen → ∀ s ∈ chunk, s ∈ cur ∨ s ∈ rest := by
  intro rest
  induction rest with
  | nil =>
    intro cur curLen chunk hmem s hs
    cases cur with
    | nil => simp [semGo] at hmem
    | cons a as =>
      simp [semGo] at hmem
      subst hmem
      exact Or.inl hs
  | cons s0 rest ih =>
    intro cur curLen chunk hmem s hs
    by_cases hc : curLen + wc s0 > size ∧ curLen > 0
    · simp only [semGo, if_pos hc] at hmem
      rcases List.mem_cons.mp hmem with rfl | hmem'
      · exact Or.inl hs
      · rcases ih (carryOver cur ++ [s0]) (sumwc (carryOver cur) + wc s0) chunk hmem' s hs with
          h | h
        · rcases List.mem_append.mp h with h2 | h2
          · exact Or.inl (carryOver_subset cur s h2)
          · simp at h2
            rw [h2]
            exact Or.inr (List.mem_cons_self s0 rest)
        · exact Or.inr (List.mem_cons_of_mem s0 h)
    · simp only [semGo, if_neg hc] at hmem
      rcases ih (cur ++ [s0]) (curLen + wc s0) chunk hmem s hs with h | h
      · rcases List.mem_append.mp h with h2 | h2
        · exact Or.inl h2
        · simp at h2
          rw [h2]
          exact Or.inr (List.mem_cons_self s0 rest)
      · exact Or.inr (List.mem_cons_of_mem s0 h)

/-- `Config` with `CHUNK_SIZE = 3` and smart chunking on. -/
def cfgSmall : Config := { CHUNK_SIZE := 3 }

/-- A document whose content is a single four-word sentence. -/
def docOneSentence : Document :=
  { title := "T", year := "1999", content := "a b c d.", genres := [], metadata := metaT }

/-- Claim C10: `CHUNK_SIZE` is not a hard bound for the sentence-aware
strategy — the concrete single-sentence document above yields a chunk
of 4 > 3 words — and in general a chunk is only ever closed between
whole sentences: every sentence of every emitted chunk is one of the
document's split sentences, never a fragment of one. -/
theorem c10_no_hard_size_bound :
    (∃ c ∈ chunk_document cfgSmall docOneSentence, cfgSmall.CHUNK_SIZE < wc c.content) ∧
      (∀ (cfg : Config) (content : String),
        ∀ chunkSents ∈ semChunkSentences cfg content,
          ∀ s ∈ chunkSents, s ∈ splitSentences content) := by
  constructor
  · decide
  · intro cfg content chunkSents hmem s hs
    rcases semGo_sentences_from cfg.CHUNK_SIZE (splitSentences content) [] 0 chunkSents hmem s hs
      with h | h
    · simp at h
    · exact h

/-- Witness for C10 at a concrete input: the one emitted chunk's single
sentence is the document's single split sentence. -/
theorem c10_no_hard_size_bound_witness :
    "a b c d" ∈ splitSentences "a b c d." :=
  c10_no_hard_size_bound.2 cfgSmall "a b c d." ["a b c d"] (by decide) "a b c d" (by decide)

/-! ### Claim C2 — search emptiness and the threshold fallback -/

lemma scoredIdx_length (q : Vec) : ∀ (i : Nat) (vs : List Vec),
    (scoredIdx q i vs).length = vs.length := by
  intro i vs
  induction vs generalizing i with
  | nil => rfl
  | cons v vs ih => simp [scoredIdx, ih]

lemma scoredIdx_idx_lt (q : Vec) : ∀ (i : Nat) (vs : List Vec) (p : ℚ × Nat),
    p ∈ scoredIdx q i vs → p.2 < i + vs.length := by
  intro i vs
  induction vs generalizing i with
  | nil => intro p hp; simp [scoredIdx] at hp
  | cons v vs ih =>
    intro p hp
    rcases List.mem_cons.mp hp with rfl | hp'
    · simp
    · have := ih (i + 1) p hp'
      simp only [List.length_cons]
      omega

lemma faissTopKs_length (vecs : List Vec) (q : Vec) (k : Nat) :
    (faissTopKs vecs q k).length = min k vecs.length := by
  unfold faissTopKs
  rw [List.length_take, List.length_insertionSort, scoredIdx_length]

lemma faissTopKs_idx_lt (vecs : List Vec) (q : Vec) (k : Nat) :
    ∀ p ∈ faissTopKs vecs q k, p.2 < vecs.length := by
  intro p hp
  have h1 : p ∈ (scoredIdx q 0 vecs).insertionSort (fun a b => b.1 ≤ a.1) :=
    List.mem_of_mem_take hp
  have h2 : p ∈ scoredIdx q 0 vecs :=
    (List.perm_insertionSort (fun a b => b.1 ≤ a.1) (scoredIdx q 0 vecs)).mem_iff.mp h1
  have := scoredIdx_idx_lt q 0 vecs p h2
  omega

lemma filterLoop_length_le (cfg : Config) (n tk : Nat) :
    ∀ (cands acc : List (ℚ × Nat)), acc.length < tk →
      (filterLoop cfg n tk cands acc).length ≤ tk := by
  intro cands
  induction cands with
  | nil =>
    intro acc h
    simpa [filterLoop] using h.le
  | cons c rest ih =>
    intro acc h
    simp only [filterLoop]
    by_cases hcond : c.2 < n ∧ cfg.SIMILARITY_THRESHOLD ≤ c.1
    · rw [if_pos hcond]
      by_cases hbrk : tk ≤ (acc ++ [c]).length
      · rw [if_pos hbrk]
        simp only [List.length_append, List.length_cons, List.length_nil]
        omega
      · rw [if_neg hbrk]
        exact ih (acc ++ [c]) (by simp at hbrk ⊢; omega)
    · rw [if_neg hcond]
      by_cases hbrk : tk ≤ acc.length
      · rw [if_pos hbrk]; omega
      · rw [if_neg hbrk]
        exact ih acc (by omega)

lemma fallbackLoop_length_le (n tk : Nat) :
    ∀ (i : Nat) (cands : List (ℚ × Nat)), (fallbackLoop n tk i cands).length ≤ tk - i := by
  intro i cands
  induction cands generalizing i with
  | nil => simp [fallbackLoop]
  | cons c rest ih =>
    simp only [fallbackLoop]
    by_cases h : c.2 < n ∧ i < tk
    · rw [if_pos h]
      have := ih (i + 1)
      simp only [List.length_cons]
      omega
    · rw [if_neg h]
      have := ih (i + 1)
      omega

/-- The selection phase keeps between 1 and `top_k` candidates whenever
it is handed a non-empty in-range candidate list and `top_k ≥ 1`:
either the threshold filter kept something, or the fallback loop keeps
at least the first raw candidate. -/
lemma searchResults_spec (cfg : Config) (n tk : Nat) (cands : List (ℚ × Nat))
    (hne : cands ≠ []) (hidx : ∀ p ∈ cands, p.2 < n) (htk : 0 < tk) :
    searchResults cfg n tk cands ≠ [] ∧ (searchResults cfg n tk cands).length ≤ tk := by
  unfold searchResults
  by_cases hf : filterLoop cfg n tk cands [] = []
  · have hlen : 0 < cands.length := List.length_pos.mpr hne
    rw [if_pos ⟨hf, hlen⟩]
    obtain ⟨c, rest, rfl⟩ := List.exists_cons_of_ne_nil hne
    have hc : c.2 < n := hidx c (List.mem_cons_self c rest)
    constructor
    · simp only [fallbackLoop, if_pos (And.intro hc htk)]
      exact List.cons_ne_nil _ _
    · exact le_trans (fallbackLoop_length_le n tk 0 (c :: rest)) (by omega)
  · have hcond : ¬ (filterLoop cfg n tk cands [] = [] ∧ 0 < cands.length) := by
      intro h; exact hf h.1
    rw [if_neg hcond]
    exact ⟨hf, filterLoop_length_le cfg n tk cands [] (by simpa using htk)⟩

/-- Claim C2 as amended: for every `top_k ≥ 1`, a search against a
built index whose chunk store is non-empty (and aligned with the
index, as every build leaves it) returns — without raising — between 1
and `top_k` results, even when every candidate scores below
`SIMILARITY_THRESHOLD`; and a search on an unbuilt index returns the
empty list before any retrieval.  (For `top_k = 0` the faiss call's
`k > 0` assertion fires and the uncaught exception propagates, so
`search` returns nothing at all — recorded by the counterexample.) -/
theorem c2_search_nonempty (embed : String → Vec) (normalize : Vec → Vec) (cfg : Config)
    (st : VSState) (q : String) (top_k : Nat) (vecs : List Vec)
    (hidx : st.index = some vecs) (hlen : vecs.length = st.chunks.length)
    (hne : st.chunks ≠ []) (htk : 1 ≤ top_k) :
    (∃ r, search embed normalize cfg st q top_k = some r ∧ r ≠ [] ∧ r.length ≤ top_k) ∧
      ∀ st2 : VSState, st2.index = none → search embed normalize cfg st2 q top_k = some [] := by
  have hn : 0 < st.chunks.length := List.length_pos.mpr hne
  have hk0 : ¬ min (top_k * 3) st.chunks.length = 0 := by omega
  have hcands :
      faissTopKs vecs (normalize (embed q)) (min (top_k * 3) st.chunks.length) ≠ [] := by
    have h1 : (faissTopKs vecs (normalize (embed q)) (min (top_k * 3) st.chunks.length)).length
        = min (min (top_k * 3) st.chunks.length) vecs.length := faissTopKs_length _ _ _
    intro hnil
    rw [hnil] at h1
    simp only [List.length_nil] at h1
    omega
  have hbound : ∀ p ∈ faissTopKs vecs (normalize (embed q)) (min (top_k * 3) st.chunks.length),
      p.2 < st.chunks.length := by
    intro p hp
    have := faissTopKs_idx_lt vecs (normalize (embed q)) (min (top_k * 3) st.chunks.length) p hp
    omega
  have hspec := searchResults_spec cfg st.chunks.length top_k
    (faissTopKs vecs (normalize (embed q)) (min (top_k * 3) st.chunks.length))
    hcands hbound (by omega)
  refine ⟨⟨(searchResults cfg st.chunks.length top_k
      (faissTopKs vecs (normalize (embed q)) (min (top_k * 3) st.chunks.length))).map
        (fun c => ((st.chunks.getD c.2 defChunk), c.1)), ?_, ?_, ?_⟩, ?_⟩
  · simp only [search, hidx, faissTopK, if_neg hk0]
  · intro hnil
    rw [List.map_eq_nil_iff] at hnil
    exact hspec.1 hnil
  · rw [List.length_map]
    exact hspec.2
  · intro st2 h2
    simp [search, h2]

/-- Claim C2, counterexample to the universally-quantified form: with
`top_k = 0` the code asks faiss for `min(0, len(chunks)) = 0`
candidates, faiss's `k > 0` assertion raises, and the uncaught
exception propagates out of `search` — so although the index is built
over a non-empty chunk list, `search` does not return the promised
up-to-`top_k` candidates (indeed it returns no sequence at all). -/
theorem c2_counterexample_topk_zero :
    builtSt.index ≠ none ∧ builtSt.chunks ≠ [] ∧
      search embed1 id cfgThr builtSt "any query" 0 = none :=
  ⟨by decide, by decide, rfl⟩

/-- Witness for the amended C2 at a concrete input: a one-chunk built
store with an integral threshold and `top_k = 1`. -/
theorem c2_search_nonempty_witness :
    ∃ r, search embed1 id cfgThr builtSt "robot movies" 1 = some r ∧ r ≠ [] ∧ r.length ≤ 1 :=
  (c2_search_nonempty embed1 id cfgThr builtSt "robot movies" 1 [[1]]
    rfl (by decide) (by decide) (by decide)).1

end MovieRag
